import Mathlib

/-!
Verification of the text sanitizer and conversion glue of `pdf2doc`
(`src/converter.py`).

A Python `str` is a sequence of Unicode code points, which may include lone
surrogates (`chr(n)` accepts any `n < 0x110000`).  Lean's `Char` excludes the
surrogate range, so text is embedded as `List Nat`, one element per code
point.

The three passes of `Converter.remove_control_characters` are regex
substitutions (`re.sub`).  For the fixed patterns involved, `re.sub` scans
left to right, attempts a match at each position, emits the replacement and
resumes immediately after the matched text (the replacement itself is never
rescanned by the same pass), and, on failure, emits the current character and
advances one position.  The scanners below implement exactly that, with a
fuel argument equal to the string length so that every definition is
structurally recursive and computable by the kernel.

Python's `\d` with Unicode semantics also accepts non-ASCII decimal digits;
the embedding models the ASCII digit range `0-9`, over which every reference
form in the specification falls.  `[0-9a-fA-F]` is ASCII-only in Python, so
the hexadecimal class is exact.
-/

namespace Pdf2doc

/-- The character class `\d` of the decimal pattern (ASCII range). -/
def isAsciiDigit (c : Nat) : Bool :=
  decide (48 ≤ c) && decide (c ≤ 57)

/-- The character class `[0-9a-fA-F]` of the hexadecimal pattern. -/
def isHexDigitCp (c : Nat) : Bool :=
  isAsciiDigit c || (decide (97 ≤ c) && decide (c ≤ 102)) ||
    (decide (65 ≤ c) && decide (c ≤ 70))

/-- Value of one ASCII decimal digit code point. -/
def decDigitVal (c : Nat) : Nat := c - 48

/-- Value of one hexadecimal digit code point (either case). -/
def hexDigitVal (c : Nat) : Nat :=
  if 97 ≤ c then c - 87 else if 65 ≤ c then c - 55 else c - 48

/-- Python's `int(s, base)` on a string of digit code points. -/
def intOfDigits (base : Nat) (val : Nat → Nat) (ds : List Nat) : Nat :=
  ds.foldl (fun a c => a * base + val c) 0

/-- The inner helper `str_to_int` of `remove_control_characters`: the
character `chr(n)` when `n < 0x10000`, otherwise the whole match
(`default = c.group(0)`). -/
def str_to_int (n : Nat) (default : List Nat) : List Nat :=
  if n < 65536 then [n] else default

/-- Attempt to match `&#(\d+);?` at the start of the string.  On success,
returns the replacement produced by `str_to_int` together with the text
following the match. -/
def decMatch : List Nat → Option (List Nat × List Nat)
  | 38 :: 35 :: rest =>
    let ds := rest.takeWhile isAsciiDigit
    if ds = [] then none
    else
      match rest.dropWhile isAsciiDigit with
      | 59 :: r2 =>
        some (str_to_int (intOfDigits 10 decDigitVal ds) (38 :: 35 :: (ds ++ [59])), r2)
      | r =>
        some (str_to_int (intOfDigits 10 decDigitVal ds) (38 :: 35 :: ds), r)
  | _ => none

/-- The decimal pass `re.sub(r"&#(\d+);?", ...)`, fuelled scanner. -/
def subDecF : Nat → List Nat → List Nat
  | 0, s => s
  | _ + 1, [] => []
  | f + 1, c :: cs =>
    match decMatch (c :: cs) with
    | some (rep, r) => rep ++ subDecF f r
    | none => c :: subDecF f cs

/-- The decimal pass of `remove_control_characters`. -/
def subDec (s : List Nat) : List Nat := subDecF s.length s

/-- Attempt to match `&#[xX]([0-9a-fA-F]+);?` at the start of the string. -/
def hexMatch : List Nat → Option (List Nat × List Nat)
  | 38 :: 35 :: x :: rest =>
    if x = 120 ∨ x = 88 then
      let ds := rest.takeWhile isHexDigitCp
      if ds = [] then none
      else
        match rest.dropWhile isHexDigitCp with
        | 59 :: r2 =>
          some (str_to_int (intOfDigits 16 hexDigitVal ds) (38 :: 35 :: x :: (ds ++ [59])), r2)
        | r =>
          some (str_to_int (intOfDigits 16 hexDigitVal ds) (38 :: 35 :: x :: ds), r)
    else none
  | _ => none

/-- The hexadecimal pass `re.sub(r"&#[xX]([0-9a-fA-F]+);?", ...)`, fuelled
scanner. -/
def subHexF : Nat → List Nat → List Nat
  | 0, s => s
  | _ + 1, [] => []
  | f + 1, c :: cs =>
    match hexMatch (c :: cs) with
    | some (rep, r) => rep ++ subHexF f r
    | none => c :: subHexF f cs

/-- The hexadecimal pass of `remove_control_characters`. -/
def subHex (s : List Nat) : List Nat := subHexF s.length s

/-- The character class `[\x00-\x08\x0b\x0e-\x1f\x7f]` of the third pass. -/
def strippedCp (c : Nat) : Bool :=
  decide (c ≤ 8) || decide (c = 11) ||
    (decide (14 ≤ c) && decide (c ≤ 31)) || decide (c = 127)

/-- The control-stripping pass `re.sub(r"[\x00-\x08\x0b\x0e-\x1f\x7f]", "", ...)`:
each matched character is replaced by the empty string. -/
def stripCtlF : Nat → List Nat → List Nat
  | 0, s => s
  | _ + 1, [] => []
  | f + 1, c :: cs =>
    if strippedCp c then stripCtlF f cs else c :: stripCtlF f cs

/-- The control-stripping pass of `remove_control_characters`. -/
def stripCtl (s : List Nat) : List Nat := stripCtlF s.length s

/-- `Converter.remove_control_characters`: the decimal pass, then the
hexadecimal pass, then the control-stripping pass. -/
def remove_control_characters (s : List Nat) : List Nat :=
  stripCtl (subHex (subDec s))

/-- The destination-path computation of `Converter.convert`:
`f"{path.split('.')[0]}.docx"`, i.e. the text before the first `.`
with `.docx` appended. -/
def doc_path (path : List Nat) : List Nat :=
  path.takeWhile (fun c => decide (c ≠ 46)) ++ [46, 100, 111, 99, 120]

/-- Modelled from the spec: the destination-path rule as §6 words it —
"derived from the source file path by replacing its final extension segment
with `.docx`", i.e. the text before the *last* `.` with `.docx` appended.
Kept separate from `doc_path` for comparison. -/
def docPathSpecFinalExt (path : List Nat) : List Nat :=
  ((path.reverse.dropWhile (fun c => decide (c ≠ 46))).tail).reverse ++
    [46, 100, 111, 99, 120]

/-- One entry of the output document built by `Converter.convert`: a
paragraph added by `doc.add_paragraph` or a break added by
`doc.add_page_break`. -/
inductive DocItem
  | para (text : List Nat)
  | pageBreak

/-- The external `doc.add_paragraph` call.  python-docx either appends the
paragraph or raises; which of the two happens is an oracle `fail` on the
text being appended. -/
def add_paragraph (fail : List Nat → Bool) (d : List DocItem) (t : List Nat) :
    Except Unit (List DocItem) :=
  if fail t then Except.error () else Except.ok (d ++ [DocItem.para t])

/-- The per-page loop of `Converter.convert`: sanitize the page text, append
it inside `try`/`except` (on an exception the error is printed and the text
omitted), then unconditionally add a page break. -/
def convertLoop (fail : List Nat → Bool) (d : List DocItem) :
    List (List Nat) → Except Unit (List DocItem)
  | [] => Except.ok d
  | page :: rest =>
    let text := remove_control_characters page
    let d2 := match add_paragraph fail d text with
      | Except.ok updated => updated
      | Except.error _ => d
    convertLoop fail (d2 ++ [DocItem.pageBreak]) rest

/-- `Converter.convert`, starting from an empty document. -/
def convert (fail : List Nat → Bool) (pages : List (List Nat)) :
    Except Unit (List DocItem) :=
  convertLoop fail [] pages

/-- The two completion signals of `Converter`. -/
inductive Signal
  | finished
  | warning

/-- `Converter.run`: emits `finished` when `convert` returns normally and
`warning` when it raises. -/
def run (fail : List Nat → Bool) (pages : List (List Nat)) : Signal :=
  match convert fail pages with
  | Except.ok _ => Signal.finished
  | Except.error _ => Signal.warning

/-- The paragraph texts of a document, in order. -/
def paras : List DocItem → List (List Nat)
  | [] => []
  | DocItem.para t :: r => t :: paras r
  | DocItem.pageBreak :: r => paras r

/-- The number of page breaks in a document. -/
def breakCount : List DocItem → Nat
  | [] => 0
  | DocItem.para _ :: r => breakCount r
  | DocItem.pageBreak :: r => breakCount r + 1

example : subDec [38, 35, 54, 53, 59] = [65] := by decide
example : subDec [38, 35, 54, 53] = [65] := by decide
example : subDec [38, 35, 49, 49, 49, 52, 49, 49, 50, 59] =
    [38, 35, 49, 49, 49, 52, 49, 49, 50, 59] := by decide
example : subDec [38, 35, 51, 56, 59, 35, 54, 53, 59] = [38, 35, 54, 53, 59] := by
  decide
example : remove_control_characters [38, 35, 120, 52, 49, 59] = [65] := by decide
example : remove_control_characters [38, 35, 88, 52, 49, 59] = [65] := by decide
-- "Hi&#9;there&#x0b;\x7f!" → "Hi\tthere!"
example : remove_control_characters
    [72, 105, 38, 35, 57, 59, 116, 104, 101, 114, 101,
     38, 35, 120, 48, 98, 59, 127, 33] =
    [72, 105, 9, 116, 104, 101, 114, 101, 33] := by decide
-- "&#38;#x41;" → "A"
example : remove_control_characters [38, 35, 51, 56, 59, 35, 120, 52, 49, 59] = [65] := by
  decide
-- "a.b.pdf" → "a.docx"
example : doc_path [97, 46, 98, 46, 112, 100, 102] = [97, 46, 100, 111, 99, 120] := by
  decide
example : docPathSpecFinalExt [97, 46, 98, 46, 112, 100, 102] =
    [97, 46, 98, 46, 100, 111, 99, 120] := by decide

/-! ### General lemmas about `takeWhile` and `dropWhile` -/

theorem takeWhile_append_all {p : Nat → Bool} {l : List Nat} (r : List Nat)
    (h : ∀ a ∈ l, p a = true) : (l ++ r).takeWhile p = l ++ r.takeWhile p := by
  induction l with
  | nil => simp
  | cons a l ih =>
    rw [List.cons_append, List.takeWhile_cons_of_pos (h a (by simp)),
      ih (fun a ha => h a (by simp [ha])), List.cons_append]

theorem dropWhile_append_all {p : Nat → Bool} {l : List Nat} (r : List Nat)
    (h : ∀ a ∈ l, p a = true) : (l ++ r).dropWhile p = r.dropWhile p := by
  induction l with
  | nil => simp
  | cons a l ih =>
    rw [List.cons_append, List.dropWhile_cons_of_pos (h a (by simp)),
      ih (fun a ha => h a (by simp [ha]))]

theorem takeWhile_all {p : Nat → Bool} {l : List Nat}
    (h : ∀ a ∈ l, p a = true) : l.takeWhile p = l := by
  have := takeWhile_append_all (p := p) [] h
  simpa using this

theorem dropWhile_all {p : Nat → Bool} {l : List Nat}
    (h : ∀ a ∈ l, p a = true) : l.dropWhile p = [] := by
  have := dropWhile_append_all (p := p) [] h
  simpa using this

theorem length_dropWhile_le (p : Nat → Bool) (l : List Nat) :
    (l.dropWhile p).length ≤ l.length := by
  conv_rhs => rw [← List.takeWhile_append_dropWhile p l]
  rw [List.length_append]
  exact Nat.le_add_left _ _

/-! ### The decimal pass -/

theorem decMatch_length {s rep r : List Nat} (h : decMatch s = some (rep, r)) :
    r.length < s.length := by
  rw [decMatch.eq_def] at h
  split at h
  · rename_i rest
    dsimp only at h
    split at h
    · exact absurd h (by simp)
    · split at h
      · rename_i r2 heq
        injection h with h
        injection h with h1 h2
        subst h2
        have hlen : (rest.dropWhile isAsciiDigit).length ≤ rest.length :=
          length_dropWhile_le _ _
        rw [heq] at hlen
        simp only [List.length_cons] at hlen ⊢
        omega
      · rename_i heq
        injection h with h
        injection h with h1 h2
        subst h2
        have hlen : (rest.dropWhile isAsciiDigit).length ≤ rest.length :=
          length_dropWhile_le _ _
        simp only [List.length_cons]
        omega
  · exact absurd h (by simp)

theorem subDecF_stable : ∀ f g s, s.length ≤ f → s.length ≤ g →
    subDecF f s = subDecF g s := by
  intro f
  induction f with
  | zero =>
    intro g s hf hg
    have hs : s = [] := List.eq_nil_of_length_eq_zero (Nat.le_zero.mp hf)
    subst hs
    cases g <;> rfl
  | succ f ih =>
    intro g s hf hg
    cases s with
    | nil => cases g <;> rfl
    | cons c cs =>
      cases g with
      | zero => simp at hg
      | succ g =>
        cases hm : decMatch (c :: cs) with
        | none =>
          simp only [subDecF, hm]
          have h1 : cs.length ≤ f := by simpa using hf
          have h2 : cs.length ≤ g := by simpa using hg
          rw [ih g cs h1 h2]
        | some pr =>
          obtain ⟨rep, r⟩ := pr
          have hr : r.length < cs.length + 1 := by
            simpa using decMatch_length hm
          simp only [subDecF, hm]
          have h1 : r.length ≤ f := by
            simp only [List.length_cons] at hf
            omega
          have h2 : r.length ≤ g := by
            simp only [List.length_cons] at hg
            omega
          rw [ih g r h1 h2]

theorem subDecF_eq_subDec {f : Nat} {s : List Nat} (h : s.length ≤ f) :
    subDecF f s = subDec s :=
  subDecF_stable f s.length s h le_rfl

theorem subDec_cons_match {c : Nat} {cs rep r : List Nat}
    (h : decMatch (c :: cs) = some (rep, r)) :
    subDec (c :: cs) = rep ++ subDec r := by
  have hr : r.length ≤ cs.length := by
    have := decMatch_length h
    simpa [Nat.lt_succ_iff] using this
  have h1 : subDec (c :: cs) = subDecF (cs.length + 1) (c :: cs) := by
    unfold subDec
    rw [List.length_cons]
  rw [h1]
  simp only [subDecF, h]
  rw [subDecF_eq_subDec hr]

theorem subDec_cons_none {c : Nat} {cs : List Nat}
    (h : decMatch (c :: cs) = none) :
    subDec (c :: cs) = c :: subDec cs := by
  have h1 : subDec (c :: cs) = subDecF (cs.length + 1) (c :: cs) := by
    unfold subDec
    rw [List.length_cons]
  rw [h1]
  simp only [subDecF, h]
  rw [subDecF_eq_subDec (le_refl cs.length)]

theorem decMatch_ref {ds : List Nat} (rest : List Nat) (hne : ds ≠ [])
    (hds : ∀ d ∈ ds, isAsciiDigit d = true) :
    decMatch (38 :: 35 :: (ds ++ 59 :: rest)) =
      some (str_to_int (intOfDigits 10 decDigitVal ds) (38 :: 35 :: (ds ++ [59])),
        rest) := by
  have ht : (ds ++ 59 :: rest).takeWhile isAsciiDigit = ds := by
    rw [takeWhile_append_all _ hds,
      List.takeWhile_cons_of_neg (by simp [isAsciiDigit])]
    simp
  have hd : (ds ++ 59 :: rest).dropWhile isAsciiDigit = 59 :: rest := by
    rw [dropWhile_append_all _ hds,
      List.dropWhile_cons_of_neg (by simp [isAsciiDigit])]
  simp only [decMatch, ht, hd, if_neg hne]

theorem decMatch_ref_end {ds : List Nat} (hne : ds ≠ [])
    (hds : ∀ d ∈ ds, isAsciiDigit d = true) :
    decMatch (38 :: 35 :: ds) =
      some (str_to_int (intOfDigits 10 decDigitVal ds) (38 :: 35 :: ds), []) := by
  have ht : ds.takeWhile isAsciiDigit = ds := takeWhile_all hds
  have hd : ds.dropWhile isAsciiDigit = [] := dropWhile_all hds
  simp only [decMatch, ht, hd, if_neg hne]

theorem decMatch_head_ne {c : Nat} {cs : List Nat} (h : c ≠ 38) :
    decMatch (c :: cs) = none := by
  rw [decMatch.eq_def]
  split
  · rename_i rest heq
    injection heq with h1 _
    exact absurd h1 h
  · rfl

theorem decMatch_nondigit {c : Nat} (cs : List Nat)
    (hc : isAsciiDigit c = false) :
    decMatch (38 :: 35 :: c :: cs) = none := by
  have ht : (c :: cs).takeWhile isAsciiDigit = [] :=
    List.takeWhile_cons_of_neg (by simp [hc])
  simp [decMatch, ht]

theorem subDec_of_not_amp : ∀ {s : List Nat}, 38 ∉ s → subDec s = s := by
  intro s
  induction s with
  | nil => intro _; rfl
  | cons c cs ih =>
    intro h
    have hc : c ≠ 38 := fun hc => h (by simp [hc])
    rw [subDec_cons_none (decMatch_head_ne hc), ih (fun hm => h (by simp [hm]))]

/-! ### The hexadecimal pass -/

theorem hexMatch_length {s rep r : List Nat} (h : hexMatch s = some (rep, r)) :
    r.length < s.length := by
  rw [hexMatch.eq_def] at h
  split at h
  · rename_i x rest
    split at h
    · dsimp only at h
      split at h
      · exact absurd h (by simp)
      · split at h
        · rename_i r2 heq
          injection h with h
          injection h with h1 h2
          subst h2
          have hlen : (rest.dropWhile isHexDigitCp).length ≤ rest.length :=
            length_dropWhile_le _ _
          rw [heq] at hlen
          simp only [List.length_cons] at hlen ⊢
          omega
        · rename_i heq
          injection h with h
          injection h with h1 h2
          subst h2
          have hlen : (rest.dropWhile isHexDigitCp).length ≤ rest.length :=
            length_dropWhile_le _ _
          simp only [List.length_cons]
          omega
    · exact absurd h (by simp)
  · exact absurd h (by simp)

theorem subHexF_stable : ∀ f g s, s.length ≤ f → s.length ≤ g →
    subHexF f s = subHexF g s := by
  intro f
  induction f with
  | zero =>
    intro g s hf hg
    have hs : s = [] := List.eq_nil_of_length_eq_zero (Nat.le_zero.mp hf)
    subst hs
    cases g <;> rfl
  | succ f ih =>
    intro g s hf hg
    cases s with
    | nil => cases g <;> rfl
    | cons c cs =>
      cases g with
      | zero => simp at hg
      | succ g =>
        cases hm : hexMatch (c :: cs) with
        | none =>
          simp only [subHexF, hm]
          have h1 : cs.length ≤ f := by simpa using hf
          have h2 : cs.length ≤ g := by simpa using hg
          rw [ih g cs h1 h2]
        | some pr =>
          obtain ⟨rep, r⟩ := pr
          have hr : r.length < cs.length + 1 := by
            simpa using hexMatch_length hm
          simp only [subHexF, hm]
          have h1 : r.length ≤ f := by
            simp only [List.length_cons] at hf
            omega
          have h2 : r.length ≤ g := by
            simp only [List.length_cons] at hg
            omega
          rw [ih g r h1 h2]

theorem subHexF_eq_subHex {f : Nat} {s : List Nat} (h : s.length ≤ f) :
    subHexF f s = subHex s :=
  subHexF_stable f s.length s h le_rfl

theorem subHex_cons_match {c : Nat} {cs rep r : List Nat}
    (h : hexMatch (c :: cs) = some (rep, r)) :
    subHex (c :: cs) = rep ++ subHex r := by
  have hr : r.length ≤ cs.length := by
    have := hexMatch_length h
    simpa [Nat.lt_succ_iff] using this
  have h1 : subHex (c :: cs) = subHexF (cs.length + 1) (c :: cs) := by
    unfold subHex
    rw [List.length_cons]
  rw [h1]
  simp only [subHexF, h]
  rw [subHexF_eq_subHex hr]

theorem subHex_cons_none {c : Nat} {cs : List Nat}
    (h : hexMatch (c :: cs) = none) :
    subHex (c :: cs) = c :: subHex cs := by
  have h1 : subHex (c :: cs) = subHexF (cs.length + 1) (c :: cs) := by
    unfold subHex
    rw [List.length_cons]
  rw [h1]
  simp only [subHexF, h]
  rw [subHexF_eq_subHex (le_refl cs.length)]

theorem hexMatch_ref {x : Nat} {ds : List Nat} (rest : List Nat)
    (hx : x = 120 ∨ x = 88) (hne : ds ≠ [])
    (hds : ∀ d ∈ ds, isHexDigitCp d = true) :
    hexMatch (38 :: 35 :: x :: (ds ++ 59 :: rest)) =
      some (str_to_int (intOfDigits 16 hexDigitVal ds)
        (38 :: 35 :: x :: (ds ++ [59])), rest) := by
  have ht : (ds ++ 59 :: rest).takeWhile isHexDigitCp = ds := by
    rw [takeWhile_append_all _ hds,
      List.takeWhile_cons_of_neg (by simp [isHexDigitCp, isAsciiDigit])]
    simp
  have hd : (ds ++ 59 :: rest).dropWhile isHexDigitCp = 59 :: rest := by
    rw [dropWhile_append_all _ hds,
      List.dropWhile_cons_of_neg (by simp [isHexDigitCp, isAsciiDigit])]
  simp only [hexMatch, ht, hd, if_pos hx, if_neg hne]

theorem hexMatch_ref_end {x : Nat} {ds : List Nat}
    (hx : x = 120 ∨ x = 88) (hne : ds ≠ [])
    (hds : ∀ d ∈ ds, isHexDigitCp d = true) :
    hexMatch (38 :: 35 :: x :: ds) =
      some (str_to_int (intOfDigits 16 hexDigitVal ds) (38 :: 35 :: x :: ds),
        []) := by
  have ht : ds.takeWhile isHexDigitCp = ds := takeWhile_all hds
  have hd : ds.dropWhile isHexDigitCp = [] := dropWhile_all hds
  simp only [hexMatch, ht, hd, if_pos hx, if_neg hne]

theorem hexMatch_head_ne {c : Nat} {cs : List Nat} (h : c ≠ 38) :
    hexMatch (c :: cs) = none := by
  rw [hexMatch.eq_def]
  split
  · rename_i x rest heq
    injection heq with h1 _
    exact absurd h1 h
  · rfl

theorem subHex_of_not_amp : ∀ {s : List Nat}, 38 ∉ s → subHex s = s := by
  intro s
  induction s with
  | nil => intro _; rfl
  | cons c cs ih =>
    intro h
    have hc : c ≠ 38 := fun hc => h (by simp [hc])
    rw [subHex_cons_none (hexMatch_head_ne hc), ih (fun hm => h (by simp [hm]))]

/-! ### The control-stripping pass -/

theorem stripCtlF_eq_filter : ∀ f s, s.length ≤ f →
    stripCtlF f s = s.filter (fun c => !strippedCp c) := by
  intro f
  induction f with
  | zero =>
    intro s hf
    have hs : s = [] := List.eq_nil_of_length_eq_zero (Nat.le_zero.mp hf)
    subst hs
    rfl
  | succ f ih =>
    intro s hf
    cases s with
    | nil => rfl
    | cons c cs =>
      have h1 : cs.length ≤ f := by simpa using hf
      cases hc : strippedCp c with
      | true => simp [stripCtlF, hc, ih cs h1, List.filter_cons]
      | false => simp [stripCtlF, hc, ih cs h1, List.filter_cons]

theorem stripCtl_eq_filter (s : List Nat) :
    stripCtl s = s.filter (fun c => !strippedCp c) :=
  stripCtlF_eq_filter s.length s le_rfl

theorem stripCtl_idem (s : List Nat) : stripCtl (stripCtl s) = stripCtl s := by
  simp [stripCtl_eq_filter, List.filter_filter]

theorem mem_stripCtl {c : Nat} {s : List Nat} (h : c ∈ stripCtl s) : c ∈ s := by
  rw [stripCtl_eq_filter] at h
  exact List.mem_of_mem_filter h

theorem stripCtl_single_keep {c : Nat} (h : strippedCp c = false) :
    stripCtl [c] = [c] := by
  simp [stripCtl_eq_filter, List.filter_cons, h]

/-! ### The conversion loop -/

theorem paras_append (a b : List DocItem) :
    paras (a ++ b) = paras a ++ paras b := by
  induction a with
  | nil => simp [paras]
  | cons i r ih => cases i <;> simp [paras, ih]

theorem breakCount_append (a b : List DocItem) :
    breakCount (a ++ b) = breakCount a + breakCount b := by
  induction a with
  | nil => simp [breakCount]
  | cons i r ih =>
    cases i with
    | para t => simp [breakCount, ih]
    | pageBreak =>
      simp [breakCount, ih]
      omega

theorem convertLoop_spec (fail : List Nat → Bool) :
    ∀ (pages : List (List Nat)) (d0 : List DocItem),
    ∃ d, convertLoop fail d0 pages = Except.ok d ∧
      breakCount d = breakCount d0 + pages.length ∧
      paras d = paras d0 ++
        (pages.map remove_control_characters).filter (fun t => !fail t) := by
  intro pages
  induction pages with
  | nil => exact fun d0 => ⟨d0, rfl, by simp, by simp⟩
  | cons page rest ih =>
    intro d0
    cases hf : fail (remove_control_characters page) with
    | true =>
      obtain ⟨d, hd, hb, hp⟩ := ih (d0 ++ [DocItem.pageBreak])
      refine ⟨d, ?_, ?_, ?_⟩
      · simp only [convertLoop, add_paragraph, hf, if_true]
        exact hd
      · rw [hb, breakCount_append]
        simp [breakCount]
        omega
      · rw [hp, paras_append]
        simp [paras, List.filter_cons, hf]
    | false =>
      obtain ⟨d, hd, hb, hp⟩ :=
        ih ((d0 ++ [DocItem.para (remove_control_characters page)]) ++
          [DocItem.pageBreak])
      refine ⟨d, ?_, ?_, ?_⟩
      · simp only [convertLoop, add_paragraph, hf, if_false]
        exact hd
      · rw [hb, breakCount_append, breakCount_append]
        simp [breakCount]
        omega
      · rw [hp, paras_append, paras_append]
        simp [paras, List.filter_cons, hf]

theorem strippedCp_eq_false_of_large {n : Nat} (h : 128 ≤ n) :
    strippedCp n = false := by
  simp only [strippedCp, Bool.or_eq_false_iff, Bool.and_eq_false_iff,
    decide_eq_false_iff_not]
  omega

theorem not_strippedCp_eq (c : Nat) :
    (!strippedCp c) =
      decide (¬ (c ≤ 8 ∨ c = 11 ∨ (14 ≤ c ∧ c ≤ 31) ∨ c = 127)) := by
  rw [Bool.eq_iff_iff]
  simp [strippedCp]
  omega

/-! ### The claims -/

/-- C1: every decimal numeric character reference `&#<digits>` with optional
trailing semicolon is replaced by the single character whose code point is
the digits read in base 10 when that value is below `0x10000`; otherwise the
whole matched reference, semicolon included, is kept verbatim, and the scan
continues after it.  Concrete cases: `"&#65;"` and `"&#65"` both sanitize to
`"A"`, while `"&#1114112;"` is unchanged. -/
theorem C1_decimal_reference_resolution (ds rest : List Nat)
    (hne : ds ≠ []) (hds : ∀ d ∈ ds, isAsciiDigit d = true) :
    (subDec (38 :: 35 :: (ds ++ 59 :: rest)) =
      (if intOfDigits 10 decDigitVal ds < 65536
        then [intOfDigits 10 decDigitVal ds]
        else 38 :: 35 :: (ds ++ [59])) ++ subDec rest) ∧
    (subDec (38 :: 35 :: ds) =
      (if intOfDigits 10 decDigitVal ds < 65536
        then [intOfDigits 10 decDigitVal ds]
        else 38 :: 35 :: ds)) ∧
    remove_control_characters [38, 35, 54, 53, 59] = [65] ∧
    remove_control_characters [38, 35, 54, 53] = [65] ∧
    remove_control_characters [38, 35, 49, 49, 49, 52, 49, 49, 50, 59] =
      [38, 35, 49, 49, 49, 52, 49, 49, 50, 59] := by
  refine ⟨?_, ?_, by decide, by decide, by decide⟩
  · have h := subDec_cons_match (decMatch_ref rest hne hds)
    simpa [str_to_int] using h
  · have h := subDec_cons_match (decMatch_ref_end hne hds)
    simpa [str_to_int, subDec, subDecF] using h

/-- Witness for C1 at the concrete reference `"&#65;"`. -/
theorem C1_witness : subDec [38, 35, 54, 53, 59] = [65] := by
  have h := (C1_decimal_reference_resolution [54, 53] []
    (by decide) (by decide)).1
  simpa using h

/-- C2: every hexadecimal reference `&#x<hex>` or `&#X<hex>` with optional
trailing semicolon is replaced by the character whose code point is the hex
digits read in base 16 when below `0x10000`, otherwise kept verbatim.
Concretely, `"&#x41;"` and `"&#X41;"` both sanitize to `"A"`. -/
theorem C2_hex_reference_resolution (x : Nat) (ds rest : List Nat)
    (hx : x = 120 ∨ x = 88)
    (hne : ds ≠ []) (hds : ∀ d ∈ ds, isHexDigitCp d = true) :
    (subHex (38 :: 35 :: x :: (ds ++ 59 :: rest)) =
      (if intOfDigits 16 hexDigitVal ds < 65536
        then [intOfDigits 16 hexDigitVal ds]
        else 38 :: 35 :: x :: (ds ++ [59])) ++ subHex rest) ∧
    (subHex (38 :: 35 :: x :: ds) =
      (if intOfDigits 16 hexDigitVal ds < 65536
        then [intOfDigits 16 hexDigitVal ds]
        else 38 :: 35 :: x :: ds)) ∧
    remove_control_characters [38, 35, 120, 52, 49, 59] = [65] ∧
    remove_control_characters [38, 35, 88, 52, 49, 59] = [65] := by
  refine ⟨?_, ?_, by decide, by decide⟩
  · have h := subHex_cons_match (hexMatch_ref rest hx hne hds)
    simpa [str_to_int] using h
  · have h := subHex_cons_match (hexMatch_ref_end hx hne hds)
    simpa [str_to_int, subHex, subHexF] using h

/-- Witness for C2 at the concrete reference `"&#x41;"`. -/
theorem C2_witness : subHex [38, 35, 120, 52, 49, 59] = [65] := by
  have h := (C2_hex_reference_resolution 120 [52, 49] []
    (Or.inl rfl) (by decide) (by decide)).1
  simpa using h

/-- C3: the control-stripping pass deletes exactly the characters with code
point in `0x00-0x08`, `0x0B`, `0x0E-0x1F` or equal to `0x7F`, and keeps
every other character; in particular tab (`0x09`) and newline (`0x0A`)
survive. -/
theorem C3_control_stripping :
    (∀ s : List Nat, stripCtl s = s.filter
      (fun c => decide (¬ (c ≤ 8 ∨ c = 11 ∨ (14 ≤ c ∧ c ≤ 31) ∨ c = 127)))) ∧
    stripCtl [104, 11, 105] = [104, 105] ∧
    stripCtl [9] = [9] ∧
    stripCtl [10] = [10] := by
  refine ⟨?_, by decide, by decide, by decide⟩
  intro s
  rw [stripCtl_eq_filter]
  exact List.filter_congr (fun c _ => not_strippedCp_eq c)

/-- C4: the sanitizer is the decimal pass, then the hex pass, then the
control-stripping pass, in that order; on `"Hi&#9;there&#x0b;\x7f!"` this
yields `"Hi\tthere!"`: the converted tab survives, while the converted
`0x0B` and the literal `0x7F` are stripped. -/
theorem C4_pass_ordering :
    (∀ s : List Nat,
      remove_control_characters s = stripCtl (subHex (subDec s))) ∧
    remove_control_characters
      [72, 105, 38, 35, 57, 59, 116, 104, 101, 114, 101,
       38, 35, 120, 48, 98, 59, 127, 33] =
      [72, 105, 9, 116, 104, 101, 114, 101, 33] := by
  exact ⟨fun _ => rfl, by decide⟩

/-- C5 counterexample: the sanitizer is not idempotent.  On `"&#38;#65;"`
the first run resolves `&#38;` to `&`, producing `"&#65;"`, and a second run
resolves that to `"A"`. -/
theorem C5_counterexample :
    remove_control_characters [38, 35, 51, 56, 59, 35, 54, 53, 59] =
      [38, 35, 54, 53, 59] ∧
    remove_control_characters [38, 35, 54, 53, 59] = [65] ∧
    ([38, 35, 54, 53, 59] : List Nat) ≠ [65] := by decide

/-- C5 amended: the control-stripping pass is idempotent, and the full
sanitizer is idempotent on every string that contains no `&` character;
full idempotence fails in general (see the counterexample). -/
theorem C5_idempotence_amended (s : List Nat) :
    stripCtl (stripCtl s) = stripCtl s ∧
    (38 ∉ s → remove_control_characters (remove_control_characters s) =
      remove_control_characters s) := by
  refine ⟨stripCtl_idem s, ?_⟩
  intro h
  have h1 : remove_control_characters s = stripCtl s := by
    unfold remove_control_characters
    rw [subDec_of_not_amp h, subHex_of_not_amp h]
  have h2 : 38 ∉ stripCtl s := fun hm => h (mem_stripCtl hm)
  rw [h1]
  unfold remove_control_characters
  rw [subDec_of_not_amp h2, subHex_of_not_amp h2, stripCtl_idem]

/-- Witness for the amended C5 on the `&`-free string `"H\x0bi"`. -/
theorem C5_witness :
    remove_control_characters (remove_control_characters [72, 11, 105]) =
      remove_control_characters [72, 11, 105] :=
  (C5_idempotence_amended [72, 11, 105]).2 (by decide)

/-- C6 counterexample: resolving a reference can create a new reference.
The input `"&#38;#x41;"` contains a single (decimal) reference; resolving it
on its own yields `"&#x41;"` — which is what the decimal pass produces — but
the full sanitizer then resolves that newly created hex reference, returning
`"A"`. -/
theorem C6_counterexample :
    subDec [38, 35, 51, 56, 59, 35, 120, 52, 49, 59] =
      [38, 35, 120, 52, 49, 59] ∧
    remove_control_characters [38, 35, 51, 56, 59, 35, 120, 52, 49, 59] =
      [65] ∧
    ([65] : List Nat) ≠ [38, 35, 120, 52, 49, 59] := by decide

/-- C6 amended: within a single pass, references are resolved left-to-right
over non-overlapping matches, each independently of the next, and the
replacement text is not rescanned by that pass; however, because the hex
pass runs on the decimal pass's output, a decimal resolution can create a
hex reference that the hex pass then resolves (`"&#38;#x41;"` → `"A"`). -/
theorem C6_within_pass_independence (ds1 ds2 rest : List Nat)
    (hne1 : ds1 ≠ []) (hds1 : ∀ d ∈ ds1, isAsciiDigit d = true)
    (hne2 : ds2 ≠ []) (hds2 : ∀ d ∈ ds2, isAsciiDigit d = true) :
    subDec (38 :: 35 :: (ds1 ++ 59 :: (38 :: 35 :: (ds2 ++ 59 :: rest)))) =
      (if intOfDigits 10 decDigitVal ds1 < 65536
        then [intOfDigits 10 decDigitVal ds1]
        else 38 :: 35 :: (ds1 ++ [59])) ++
      ((if intOfDigits 10 decDigitVal ds2 < 65536
        then [intOfDigits 10 decDigitVal ds2]
        else 38 :: 35 :: (ds2 ++ [59])) ++ subDec rest) ∧
    remove_control_characters [38, 35, 51, 56, 59, 35, 120, 52, 49, 59] =
      [65] := by
  refine ⟨?_, by decide⟩
  rw [subDec_cons_match (decMatch_ref _ hne1 hds1),
    subDec_cons_match (decMatch_ref rest hne2 hds2)]
  simp [str_to_int]

/-- Witness for the amended C6 on the adjacent references `"&#65;&#66;"`. -/
theorem C6_witness :
    subDec [38, 35, 54, 53, 59, 38, 35, 54, 54, 59] = [65, 66] := by
  have h := (C6_within_pass_independence [54, 53] [54, 54] []
    (by decide) (by decide) (by decide) (by decide)).1
  simpa using h

/-- C7: the sanitizer is total — every string, the empty one included, maps
to a string; text shaped like a reference but malformed (a non-digit right
after `&#`) fails to match and passes through as literal text (`"&#zz;"` is
returned unchanged).  The quantified part is stated over the ASCII range,
where the embedding's digit class coincides with Python's `\d`: a non-ASCII
code point after `&#` may be a Unicode decimal digit, which `\d` matches and
the program does convert, so it is not malformed text in the claim's sense. -/
theorem C7_totality_malformed (c : Nat) (cs : List Nat)
    (hascii : c < 128) (hc : isAsciiDigit c = false) :
    remove_control_characters [] = [] ∧
    subDec (38 :: 35 :: c :: cs) = 38 :: subDec (35 :: c :: cs) ∧
    remove_control_characters [38, 35, 122, 122, 59] =
      [38, 35, 122, 122, 59] := by
  exact ⟨by decide, subDec_cons_none (decMatch_nondigit cs hc), by decide⟩

/-- Witness for C7 at the malformed reference `"&#zz;"`. -/
theorem C7_witness :
    subDec [38, 35, 122, 122, 59] = 38 :: subDec [35, 122, 122, 59] :=
  (C7_totality_malformed 122 [122, 59] (by decide) (by decide)).2.1

/-- C8 counterexample: the destination path is not obtained by replacing the
final extension segment.  On `"a.b.pdf"` the code truncates at the *first*
dot, yielding `"a.docx"`, whereas replacing the final extension would yield
`"a.b.docx"`. -/
theorem C8_counterexample :
    doc_path [97, 46, 98, 46, 112, 100, 102] = [97, 46, 100, 111, 99, 120] ∧
    docPathSpecFinalExt [97, 46, 98, 46, 112, 100, 102] =
      [97, 46, 98, 46, 100, 111, 99, 120] ∧
    doc_path [97, 46, 98, 46, 112, 100, 102] ≠
      docPathSpecFinalExt [97, 46, 98, 46, 112, 100, 102] := by decide

/-- C8 amended: the destination path is the source path truncated at its
first `.` with `.docx` appended.  When the path contains exactly one dot
this coincides with replacing the final extension segment — both give the
dot-free prefix followed by `.docx` — but with more than one dot everything
from the first dot on is discarded. -/
theorem C8_first_dot_truncation (a b : List Nat)
    (ha : 46 ∉ a) (hb : 46 ∉ b) :
    doc_path (a ++ 46 :: b) = a ++ [46, 100, 111, 99, 120] ∧
    docPathSpecFinalExt (a ++ 46 :: b) = a ++ [46, 100, 111, 99, 120] := by
  have hpa : ∀ c ∈ a, (fun c => decide (c ≠ 46)) c = true := by
    intro c hc
    simp only [decide_eq_true_eq]
    exact fun h => ha (h ▸ hc)
  constructor
  · unfold doc_path
    rw [takeWhile_append_all _ hpa, List.takeWhile_cons_of_neg (by simp)]
    simp
  · unfold docPathSpecFinalExt
    rw [List.reverse_append, List.reverse_cons, List.append_assoc,
      List.singleton_append,
      dropWhile_append_all _ (by
        intro c hc
        simp only [decide_eq_true_eq]
        exact fun h => hb (h ▸ (List.mem_reverse.mp hc))),
      List.dropWhile_cons_of_neg (by simp)]
    simp

/-- Witness for the amended C8 on the single-dot path `"r.pdf"`. -/
theorem C8_witness :
    doc_path [114, 46, 112, 100, 102] = [114, 46, 100, 111, 99, 120] ∧
    docPathSpecFinalExt [114, 46, 112, 100, 102] =
      [114, 46, 100, 111, 99, 120] :=
  C8_first_dot_truncation [114] [112, 100, 102] (by decide) (by decide)

/-- C9: a decimal or hexadecimal reference whose value lies in the UTF-16
surrogate range `0xD800-0xDFFF` is below `0x10000`, so the sanitizer
converts it into the corresponding lone surrogate code point instead of
leaving it as literal text. -/
theorem C9_surrogate_references (ds dsx : List Nat) (n m : Nat)
    (hne : ds ≠ []) (hds : ∀ d ∈ ds, isAsciiDigit d = true)
    (hn : intOfDigits 10 decDigitVal ds = n)
    (hnlo : 55296 ≤ n) (hnhi : n ≤ 57343)
    (hnex : dsx ≠ []) (hdsx : ∀ d ∈ dsx, isHexDigitCp d = true)
    (hm : intOfDigits 16 hexDigitVal dsx = m)
    (hmlo : 55296 ≤ m) (hmhi : m ≤ 57343) :
    remove_control_characters (38 :: 35 :: (ds ++ 59 :: [])) = [n] ∧
    remove_control_characters (38 :: 35 :: 120 :: (dsx ++ 59 :: [])) =
      [m] := by
  constructor
  · have hsd : subDec (38 :: 35 :: (ds ++ 59 :: [])) = [n] := by
      rw [subDec_cons_match (decMatch_ref [] hne hds), hn]
      unfold str_to_int
      rw [if_pos (by omega : n < 65536)]
      rfl
    unfold remove_control_characters
    rw [hsd, subHex_of_not_amp (by
      intro hmem
      rw [List.mem_singleton] at hmem
      omega)]
    exact stripCtl_single_keep (strippedCp_eq_false_of_large (by omega))
  · have hdne : ∀ d ∈ dsx, d ≠ 38 := by
      intro d hd he
      have := hdsx d hd
      rw [he] at this
      exact absurd this (by decide)
    have h38 : (38 : Nat) ∉ 35 :: 120 :: (dsx ++ 59 :: []) := by
      intro hmem
      simp at hmem
      exact hdne 38 hmem rfl
    have hsd : subDec (38 :: 35 :: 120 :: (dsx ++ 59 :: [])) =
        38 :: 35 :: 120 :: (dsx ++ 59 :: []) := by
      rw [subDec_cons_none (decMatch_nondigit _ (by decide)),
        subDec_of_not_amp h38]
    have hsh : subHex (38 :: 35 :: 120 :: (dsx ++ 59 :: [])) = [m] := by
      rw [subHex_cons_match (hexMatch_ref [] (Or.inl rfl) hnex hdsx), hm]
      unfold str_to_int
      rw [if_pos (by omega : m < 65536)]
      rfl
    unfold remove_control_characters
    rw [hsd, hsh]
    exact stripCtl_single_keep (strippedCp_eq_false_of_large (by omega))

/-- Witness for C9 at `"&#55296;"` and `"&#xd800;"` (both `0xD800`). -/
theorem C9_witness :
    remove_control_characters [38, 35, 53, 53, 50, 57, 54, 59] = [55296] ∧
    remove_control_characters [38, 35, 120, 100, 56, 48, 48, 59] =
      [55296] := by
  have h := C9_surrogate_references [53, 53, 50, 57, 54] [100, 56, 48, 48]
    55296 55296 (by decide) (by decide) (by decide) (by decide) (by decide)
    (by decide) (by decide) (by decide) (by decide) (by decide)
  simpa using h

/-- C10: an exception raised while appending a page's sanitized text is
caught inside the per-page loop: that page's text is omitted, the page break
is still added, the remaining pages are processed, and the run emits the
`finished` signal — never `warning` — regardless of which appends fail. -/
theorem C10_page_errors_are_contained (fail : List Nat → Bool)
    (pages : List (List Nat)) :
    run fail pages = Signal.finished ∧
    ∃ d, convert fail pages = Except.ok d ∧
      breakCount d = pages.length ∧
      paras d = (pages.map remove_control_characters).filter
        (fun t => !fail t) := by
  obtain ⟨d, hd, hb, hp⟩ := convertLoop_spec fail pages []
  refine ⟨?_, d, hd, ?_, ?_⟩
  · simp [run, convert, hd]
  · simpa [breakCount] using hb
  · simpa [paras] using hp

end Pdf2doc
